import Mathlib

/-!
Verification of the Fuzzy Product Resolution Engine (`product_matcher.py`)
against its natural-language specification.

The Python source is shallowly embedded below. Pure functions become Lean
functions; the matcher's machine integers are `Int` (scores never overflow);
Python `float` arithmetic on the combined score and Jaccard similarity is
modelled exactly with `Rat` (the literals `0.7`, `0.3`, `0.5` become the
rationals they denote); fallible lookups return `Option`. Calls into the
external third-party `fuzzywuzzy` library (`process.extractOne`,
`process.extract`, `fuzz.ratio`, `fuzz.token_sort_ratio`) are modelled as an
oracle parameter `Oracles`, since that library is not part of this
repository; every theorem quantifies over all oracles.
-/

namespace OPS

/-- One row of `products_data` handed to `ProductCache.refresh`; both fields
come from `dict.get` and may be absent (`none`) or empty (falsy). -/
structure Row where
  article : Option String
  name : Option String
deriving DecidableEq, Repr

/-- A catalog entry as stored in `_article_to_products` / `_all_products`
(the `source` field of the Python dict is never read downstream and is
omitted). -/
structure Entry where
  article : String
  name : String
deriving DecidableEq, Repr

/-- One row of `db_products` handed to `ProductCache.refresh`, with the
`synonyms` JSON already decoded to a list (absent/empty/malformed JSON all
yield no synonyms, which we model as the empty list). -/
structure DbRow where
  article : String
  name : String
  synonyms : List String
deriving DecidableEq, Repr

/-- The value stored in `_synonym_map`: `{'article': …, 'product': …,
'score': 100}`. -/
structure SynRecord where
  article : String
  product : String
  score : Int
deriving DecidableEq, Repr

/-- Python `str.lower()`, modelled character-wise on the underlying
character list (ASCII case mapping). -/
def pyLower (s : String) : String :=
  ⟨s.data.map Char.toLower⟩

/-- Python truthiness test `if x:` for an optional string: `None` and the
empty string are falsy. -/
def truthy? : Option String → Option String
  | some s => if s.isEmpty then none else some s
  | none => none

/-- The valid catalog entries extracted by `ProductCache.refresh`'s loop
`if article and name:` over `products_data`, in row order. -/
def validRows (pd : List Row) : List Entry :=
  pd.filterMap (fun r =>
    match truthy? r.article, truthy? r.name with
    | some a, some n => some ⟨a, n⟩
    | _, _ => none)

/-- `ProductCache.get_products_by_article`: the per-article bucket of
`_article_to_products`, which `refresh` fills by appending in row order. -/
def get_products_by_article (pd : List Row) (a : String) : List Entry :=
  (validRows pd).filter (fun e => e.article = a)

/-- `ProductCache.get_articles_by_product`: the per-name bucket of
`_product_to_articles`, filled by appending in row order; lookup is by the
raw (case-sensitive) name string. -/
def get_articles_by_product (pd : List Row) (n : String) : List String :=
  ((validRows pd).filter (fun e => e.name = n)).map (fun e => e.article)

/-- `ProductCache.get_all_products`. -/
def get_all_products (pd : List Row) : List Entry :=
  validRows pd

/-- `ProductCache.get_synonym_match`: `_synonym_map` is a dict keyed by
`synonym.lower()` (later insertions overwrite earlier ones, hence the
reversed search) and is queried with `text.lower()`; each stored record
carries `score = 100`. -/
def get_synonym_match (db : List DbRow) (text : String) : Option SynRecord :=
  ((db.flatMap (fun r =>
      r.synonyms.map (fun s => (pyLower s, SynRecord.mk r.article r.name 100)))).reverse.find?
    (fun pr => pr.1 = pyLower text)).map (fun pr => pr.2)

/-- First-occurrence deduplication, as in Python `dict` key order for
`_article_to_products.keys()`. -/
def firstDedupAux : List String → List String → List String
  | _, [] => []
  | seen, x :: xs =>
    if x ∈ seen then firstDedupAux seen xs else x :: firstDedupAux (x :: seen) xs

/-- The key list `_article_to_products.keys()` used by strategy 4. -/
def firstDedup (l : List String) : List String :=
  firstDedupAux [] l

/-! ### TokenMatcher -/

/-- Python `\s` on ASCII text. -/
def pyIsSpace (c : Char) : Bool :=
  c = ' ' || c = '\t' || c = '\n' || c = '\r' || c = '\x0b' || c = '\x0c'

/-- Greedy match of the regex fragment `\d+\.?\d*` at the head of `cs`;
returns the captured characters and the number of characters consumed.
(For the three size patterns of `extract_tokens`, greedy matching without
backtracking coincides with Python `re` semantics: giving digits or the dot
back can never help the fixed suffix `\s*mm`, `\s*"` or `\)` to match.) -/
def matchNum (cs : List Char) : Option (List Char × Nat) :=
  let ds := cs.takeWhile Char.isDigit
  if ds.isEmpty then none
  else
    match cs.drop ds.length with
    | '.' :: rest2 =>
      let ds2 := rest2.takeWhile Char.isDigit
      some (ds ++ '.' :: ds2, ds.length + 1 + ds2.length)
    | _ => some (ds, ds.length)

/-- The suffix `mm` of the first size pattern, case-insensitive
(`re.IGNORECASE`). -/
def unitMM : List Char → Option Nat
  | a :: b :: _ =>
    if (a = 'm' || a = 'M') && (b = 'm' || b = 'M') then some 2 else none
  | _ => none

/-- The suffix `"` of the second size pattern. -/
def unitInch : List Char → Option Nat
  | a :: _ => if a = '\"' then some 1 else none
  | _ => none

/-- Attempt one of the two patterns `(\d+\.?\d*)\s*mm` / `(\d+\.?\d*)\s*"`
at the head of `cs`: number, optional whitespace, unit. Returns the captured
group and the total length of the match. -/
def matchSizeAt (unit : List Char → Option Nat) (cs : List Char) :
    Option (String × Nat) :=
  match matchNum cs with
  | none => none
  | some (grp, n) =>
    let rest := cs.drop n
    let k := (rest.takeWhile pyIsSpace).length
    match unit (rest.drop k) with
    | some u => some (⟨grp⟩, n + k + u)
    | none => none

/-- Attempt the third pattern `\((\d+\.?\d*)\)` at the head of `cs`. -/
def matchParenAt : List Char → Option (String × Nat)
  | '(' :: rest =>
    match matchNum rest with
    | some (grp, n) =>
      match rest.drop n with
      | ')' :: _ => some (⟨grp⟩, 1 + n + 1)
      | _ => none
    | none => none
  | _ => none

/-- `re.findall` over the text for one pattern: scan left to right, emit the
captured group of each non-overlapping match and continue after it. The
fuel argument is the text length, which suffices because every successful
match consumes at least one character. -/
def scanAux (matchAt : List Char → Option (String × Nat)) :
    Nat → List Char → List String
  | 0, _ => []
  | _ + 1, [] => []
  | fuel + 1, c :: rest =>
    match matchAt (c :: rest) with
    | some (tok, n) => tok :: scanAux matchAt fuel ((c :: rest).drop n)
    | none => scanAux matchAt fuel rest

/-- All captured groups of one size pattern over the whole text. -/
def findallSizes (matchAt : List Char → Option (String × Nat))
    (text : String) : List String :=
  scanAux matchAt text.length text.data

/-- The closed color vocabulary of `TokenMatcher.extract_tokens`. -/
def colorList : List String :=
  ["black", "red", "blue", "green", "white", "yellow",
   "orange", "purple", "pink", "brown", "grey", "gray"]

/-- Substring test `needle in hay` on character lists. -/
def containsSub (hay needle : List Char) : Bool :=
  match hay with
  | [] => needle.isEmpty
  | _ :: t => if needle.isPrefixOf hay then true else containsSub t needle

/-- `TokenMatcher.extract_tokens`: the set of size captures of the three
regex patterns (lower-cased, a no-op on digits) together with every color
word occurring as a substring of the lower-cased text. -/
def extract_tokens (text : String) : Finset String :=
  let sizes := findallSizes (matchSizeAt unitMM) text
    ++ findallSizes (matchSizeAt unitInch) text
    ++ findallSizes matchParenAt text
  let lower := pyLower text
  (sizes.map pyLower).toFinset
    ∪ (colorList.filter (fun c => containsSub lower.data c.data)).toFinset

/-- `TokenMatcher.token_similarity`: 0 when either set is empty, else the
Jaccard ratio `len(intersection) / len(union)` (the inner `if union` guard
of the source is kept verbatim). -/
def token_similarity (tokens1 tokens2 : Finset String) : ℚ :=
  if tokens1 = ∅ ∨ tokens2 = ∅ then 0
  else if tokens1 ∪ tokens2 = ∅ then 0
  else ((tokens1 ∩ tokens2).card : ℚ) / ((tokens1 ∪ tokens2).card : ℚ)

/-! ### EnhancedProductMatcher -/

/-- Oracle interface covering the calls into the external `fuzzywuzzy`
library: `process.extractOne(…, scorer=fuzz.ratio)`,
`process.extractOne(…, scorer=fuzz.token_sort_ratio)` and
`process.extract(…, scorer=fuzz.token_sort_ratio, limit=5)`. -/
structure Oracles where
  extractOne_simple : String → List String → Option (String × Int)
  extractOne_tsr : String → List String → Option (String × Int)
  extract_tsr5 : String → List String → List (String × Int)

/-- The result tuple `(matched_article, matched_product, score, method)` of
`EnhancedProductMatcher.match_product`. -/
structure MatchResult where
  article : Option String
  name : Option String
  score : Int
  method : Option String
deriving DecidableEq, Repr

/-- Python `int()` applied to a non-negative-or-negative rational:
truncation toward zero. -/
def pyInt (q : ℚ) : Int :=
  if 0 ≤ q then q.floor else -((-q).floor)

/-- `EnhancedProductMatcher._choose_best_candidate`: fuzzy-match the input
name against the candidate names and return the first candidate whose name
equals the oracle's best choice. -/
def choose_best_candidate (o : Oracles) (input_product : String)
    (candidates : List Entry) : Option Entry :=
  match o.extractOne_tsr input_product (candidates.map (fun c => c.name)) with
  | some bm => candidates.find? (fun c => c.name = bm.1)
  | none => none

/-- The nested `for article in articles: for product in products:` loop of
`_choose_best_article_by_tokens`, running over the flattened
(article, product-name) pairs with accumulators `best_score` (starts `0`)
and `best_article` (starts `None`), updating on strict improvement. -/
def cbabtFold (it : Finset String) :
    List (String × String) → ℚ → Option String → ℚ × Option String
  | [], bs, ba => (bs, ba)
  | (a, n) :: rest, bs, ba =>
    if bs < token_similarity it (extract_tokens n) then
      cbabtFold it rest (token_similarity it (extract_tokens n)) (some a)
    else cbabtFold it rest bs ba

/-- `EnhancedProductMatcher._choose_best_article_by_tokens`. -/
def choose_best_article_by_tokens (pd : List Row) (input_product : String)
    (articles : List String) : Option String :=
  let it := extract_tokens input_product
  if it = ∅ then none
  else
    let pairs := articles.flatMap (fun a =>
      (get_products_by_article pd a).map (fun e => (a, e.name)))
    let r := cbabtFold it pairs 0 none
    if (1 : ℚ) / 2 < r.1 then r.2 else none

/-- The combined score of `_enhance_with_tokens`:
`fuzzy_score * 0.7 + token_score * 100 * 0.3` in exact rational
arithmetic. -/
def combinedScore (it : Finset String) (m : String × Int) : ℚ :=
  (m.2 : ℚ) * (7 / 10) + token_similarity it (extract_tokens m.1) * 100 * (3 / 10)

/-- The `for match in fuzzy_matches:` loop of `_enhance_with_tokens`, with
accumulators `best_combined_score` and `best_match`; an update records the
int-truncated combined score. -/
def ewtAux (it : Finset String) :
    List (String × Int) → ℚ → (String × Int) → String × Int
  | [], _, best => best
  | m :: rest, bc, best =>
    if bc < combinedScore it m then
      ewtAux it rest (combinedScore it m) (m.1, pyInt (combinedScore it m))
    else ewtAux it rest bc best

/-- `EnhancedProductMatcher._enhance_with_tokens`. The accumulators start
at the head match and its raw fuzzy score; the loop then runs over the full
list. (On `[]` the Python code would raise `IndexError`; both call sites
guarantee a non-empty argument, and we return a junk value there.) -/
def enhance_with_tokens (input_product : String)
    (fuzzy_matches : List (String × Int)) : String × Int :=
  match fuzzy_matches with
  | [] => ("", 0)
  | m0 :: _ =>
    ewtAux (extract_tokens input_product) fuzzy_matches ((m0.2 : ℚ)) m0

/-- Strategy 1 of `match_product`: exact article-number match. A `none`
result means control falls through to the next strategy (which happens when
the bucket is empty, or when disambiguation by name finds no candidate). -/
def strategy1 (o : Oracles) (pd : List Row)
    (input_product input_article : Option String) : Option MatchResult :=
  match truthy? input_article with
  | none => none
  | some a =>
    match get_products_by_article pd a with
    | [] => none
    | [e] => some ⟨some e.article, some e.name, 100, some "exact_article"⟩
    | e :: e2 :: rest =>
      match truthy? input_product with
      | some p =>
        match choose_best_candidate o p (e :: e2 :: rest) with
        | some b =>
          some ⟨some b.article, some b.name, 100, some "exact_article_disambiguated"⟩
        | none => none
      | none => some ⟨some e.article, some e.name, 100, some "exact_article_first"⟩

/-- Strategy 2 of `match_product`: exact (case-sensitive) product-name
match, with token disambiguation among multiple codes. -/
def strategy2 (pd : List Row) (input_product : Option String) :
    Option MatchResult :=
  match truthy? input_product with
  | none => none
  | some p =>
    match get_articles_by_product pd p with
    | [] => none
    | [a] => some ⟨some a, some p, 100, some "exact_product"⟩
    | a :: a2 :: rest =>
      match choose_best_article_by_tokens pd p (a :: a2 :: rest) with
      | some ba =>
        some ⟨some ba, some p, 100, some "exact_product_token_disambiguated"⟩
      | none => some ⟨some a, some p, 100, some "exact_product_first"⟩

/-- Strategy 3 of `match_product`: synonym lookup. -/
def strategy3 (db : List DbRow) (input_product : Option String) :
    Option MatchResult :=
  match truthy? input_product with
  | none => none
  | some p =>
    (get_synonym_match db p).map (fun r =>
      ⟨some r.article, some r.product, r.score, some "synonym_match"⟩)

/-- Strategy 4 of `match_product`: fuzzy article-number match over the key
list of `_article_to_products`. -/
def strategy4 (o : Oracles) (pd : List Row) (input_article : Option String) :
    Option MatchResult :=
  match truthy? input_article with
  | none => none
  | some a =>
    let all_articles := firstDedup ((validRows pd).map (fun e => e.article))
    if all_articles.isEmpty then none
    else
      match o.extractOne_simple a all_articles with
      | some bm =>
        if 85 ≤ bm.2 then
          match get_products_by_article pd bm.1 with
          | [] => none
          | e :: _ => some ⟨some e.article, some e.name, bm.2, some "fuzzy_article"⟩
        else none
      | none => none

/-- The tail of strategy 5 after the best fuzzy match is chosen: resolve
the winning name to an article, using token disambiguation when the name
owns several articles. -/
def fuzzyFinish (pd : List Row) (p : String) (best : String × Int) :
    Option MatchResult :=
  match get_articles_by_product pd best.1 with
  | [] => none
  | [a] => some ⟨some a, some best.1, best.2, some "fuzzy_product_token_enhanced"⟩
  | a :: a2 :: rest =>
    let article :=
      (choose_best_article_by_tokens pd p (a :: a2 :: rest)).getD a
    some ⟨some article, some best.1, best.2, some "fuzzy_product_token_enhanced"⟩

/-- Strategy 5 of `match_product`: fuzzy product-name match with token
enhancement when more than one candidate survives the threshold. -/
def strategy5 (o : Oracles) (pd : List Row) (input_product : Option String)
    (threshold : Int) : Option MatchResult :=
  match truthy? input_product with
  | none => none
  | some p =>
    let names := (get_all_products pd).map (fun e => e.name)
    let ms := o.extract_tsr5 p names
    if ms.isEmpty then none
    else
      match ms.filter (fun m => decide (threshold ≤ m.2)) with
      | [] => none
      | [v] => fuzzyFinish pd p v
      | v :: v2 :: vrest =>
        fuzzyFinish pd p (enhance_with_tokens p (v :: v2 :: vrest))

/-- `EnhancedProductMatcher.match_product`: the five strategies in order;
the first one producing a result wins, otherwise
`(None, None, 0, None)`. -/
def match_product (o : Oracles) (pd : List Row) (db : List DbRow)
    (input_product input_article : Option String) (threshold : Int) :
    MatchResult :=
  match strategy1 o pd input_product input_article with
  | some r => r
  | none =>
    match strategy2 pd input_product with
    | some r => r
    | none =>
      match strategy3 db input_product with
      | some r => r
      | none =>
        match strategy4 o pd input_article with
        | some r => r
        | none =>
          match strategy5 o pd input_product threshold with
          | some r => r
          | none => ⟨none, none, 0, none⟩

/-! ### SynonymManager -/

/-- A pending suggestion dict created by `SynonymManager.suggest_synonym`. -/
structure Suggestion where
  synonym : String
  article : String
  product : String
  score : Int
  suggested_at : String
  status : String
deriving DecidableEq, Repr

/-- `SynonymManager.suggest_synonym`: when `85 <= match_score < 100`,
append a new pending suggestion; otherwise leave the list unchanged. The
wall-clock timestamp `datetime.now().isoformat()` is passed in as `now`. -/
def suggest_synonym (now original_text matched_article matched_product : String)
    (match_score : Int) (pending : List Suggestion) : List Suggestion :=
  if 85 ≤ match_score ∧ match_score < 100 then
    pending ++
      [⟨original_text, matched_article, matched_product, match_score, now, "pending"⟩]
  else pending

/-- Number of pending suggestions for one (synonym text, article) pair. -/
def countPending (pending : List Suggestion) (syn art : String) : Nat :=
  (pending.filter (fun s => s.synonym == syn && s.article == art)).length

/-- The database module used by `SynonymManager.approve_synonym`, at its
interface boundary: `get_product_by_article` returns `none` when no product
row exists, and `some syns` with the decoded synonym list otherwise
(`syns = none` models an absent/empty/undecodable `synonyms` column, for
which the code falls back to `[]`). `update_raises` tells whether the
persistence call `update_product` raises, which the `try/except` of
`approve_synonym` turns into a `False` return. -/
structure PyDb where
  get_product : String → Option (Option (List String))
  update_raises : String → List String → Bool

/-- The mutable state of a `SynonymManager`: the pending-suggestion list and
the usage counters. -/
structure Manager where
  pending : List Suggestion
  usage : List (String × Int)
deriving DecidableEq, Repr

/-- `SynonymManager.approve_synonym`. Returns the boolean result together
with the manager state after the call; the usage counters are not touched
by the method. -/
def approve_synonym (db : PyDb) (synonym article : String) (m : Manager) :
    Bool × Manager :=
  match db.get_product article with
  | none => (false, m)
  | some syns =>
    if synonym ∈ syns.getD [] then (false, m)
    else if db.update_raises article (syns.getD [] ++ [synonym]) then (false, m)
    else
      (true,
        ⟨m.pending.filter (fun s => !(s.synonym == synonym) || !(s.article == article)),
         m.usage⟩)

/-! ### The specification's view -/

/-- Modelled from the spec: the seven declared `MatchMethod` variants of the
specification's `MatchResult` data model (§3). -/
inductive MatchMethod where
  | ExactCode
  | ExactCodeDisambiguated
  | ExactName
  | ExactNameTokenDisambiguated
  | Synonym
  | FuzzyCode
  | FuzzyNameTokenEnhanced
deriving DecidableEq, Repr

/-- Modelled from the spec: the correspondence between the implementation's
method strings and the spec's `MatchMethod` variants, read off the strategy
descriptions of §4.4 (both the single-entry and the first-by-catalog-order
outcomes of step 1 are labelled ExactCode there, and both corresponding
outcomes of step 2 are labelled ExactName). -/
def methodAbs : String → Option MatchMethod
  | "exact_article" => some MatchMethod.ExactCode
  | "exact_article_disambiguated" => some MatchMethod.ExactCodeDisambiguated
  | "exact_article_first" => some MatchMethod.ExactCode
  | "exact_product" => some MatchMethod.ExactName
  | "exact_product_token_disambiguated" => some MatchMethod.ExactNameTokenDisambiguated
  | "exact_product_first" => some MatchMethod.ExactName
  | "synonym_match" => some MatchMethod.Synonym
  | "fuzzy_article" => some MatchMethod.FuzzyCode
  | "fuzzy_product_token_enhanced" => some MatchMethod.FuzzyNameTokenEnhanced
  | _ => none

/-- The maximum of the combined scores over a match list, taken relative to
a base value (used to characterize `_enhance_with_tokens`). -/
def runningMax (it : Finset String) (base : ℚ) (l : List (String × Int)) : ℚ :=
  l.foldr (fun m acc => max (combinedScore it m) acc) base

/-- The selection rule `_enhance_with_tokens` actually implements: the
running best starts at the head candidate with its raw fuzzy score, and a
candidate replaces it only when its combined score strictly exceeds the
running best. Hence the earliest candidate attaining the maximal combined
score wins, with the int-truncated combined score, provided that maximum
strictly exceeds the head candidate's raw fuzzy score; otherwise the head
candidate is returned unchanged with its raw fuzzy score. -/
def enhanceSpecAmended (input_product : String)
    (fuzzy_matches : List (String × Int)) : String × Int :=
  match fuzzy_matches with
  | [] => ("", 0)
  | m0 :: tl =>
    if (m0.2 : ℚ) < runningMax (extract_tokens input_product) ((m0.2 : ℚ)) (m0 :: tl) then
      match (m0 :: tl).find? (fun m =>
          decide (combinedScore (extract_tokens input_product) m
            = runningMax (extract_tokens input_product) ((m0.2 : ℚ)) (m0 :: tl))) with
      | some m =>
        (m.1, pyInt (runningMax (extract_tokens input_product) ((m0.2 : ℚ)) (m0 :: tl)))
      | none => m0
    else m0

/-! ### Concrete fixtures used by witnesses and counterexamples -/

/-- A trivial oracle: the external fuzzy matcher finds nothing. -/
def oTriv : Oracles :=
  ⟨fun _ _ => none, fun _ _ => none, fun _ _ => []⟩

/-- A database stub whose product lookup always fails. -/
def dbNone : PyDb :=
  ⟨fun _ => none, fun _ _ => false⟩

/-- Catalog fixture: one article number owning two name variants. -/
def pdC3 : List Row :=
  [⟨some "12345", some "A"⟩, ⟨some "12345", some "B"⟩]

/-- Catalog fixture for the fuzzy-name path: the names "b" (no tokens) and
"c 2mm" (token "2") under codes 1 and 2. -/
def pdC1 : List Row :=
  [⟨some "1", some "b"⟩, ⟨some "2", some "c 2mm"⟩]

/-- Oracle fixture: the external top-5 fuzzy pass returns the candidate
"b" with fuzzy score 90 ranked before "c 2mm" with fuzzy score 85. -/
def oC1 : Oracles :=
  ⟨fun _ _ => none, fun _ _ => none, fun _ _ => [("b", 90), ("c 2mm", 85)]⟩

/-! ### Helper lemmas -/

theorem strategy1_tags {o : Oracles} {pd : List Row} {p a : Option String}
    {r : MatchResult} (h : strategy1 o pd p a = some r) :
    r.method = some "exact_article" ∨
    r.method = some "exact_article_disambiguated" ∨
    r.method = some "exact_article_first" := by
  unfold strategy1 at h
  try dsimp only at h
  repeat' split at h
  all_goals simp_all
  all_goals (subst h; simp)

theorem strategy2_tags {pd : List Row} {p : Option String}
    {r : MatchResult} (h : strategy2 pd p = some r) :
    r.method = some "exact_product" ∨
    r.method = some "exact_product_token_disambiguated" ∨
    r.method = some "exact_product_first" := by
  unfold strategy2 at h
  try dsimp only at h
  repeat' split at h
  all_goals simp_all
  all_goals (subst h; simp)

theorem strategy3_tags {db : List DbRow} {p : Option String}
    {r : MatchResult} (h : strategy3 db p = some r) :
    r.method = some "synonym_match" := by
  unfold strategy3 at h
  try dsimp only at h
  repeat' split at h
  all_goals simp_all
  rcases h with ⟨rec, hrec, hr⟩
  simp [← hr]

theorem strategy4_tags {o : Oracles} {pd : List Row} {a : Option String}
    {r : MatchResult} (h : strategy4 o pd a = some r) :
    r.method = some "fuzzy_article" := by
  unfold strategy4 at h
  try dsimp only at h
  repeat' split at h
  all_goals simp_all
  all_goals (subst h; simp)

theorem strategy5_tags {o : Oracles} {pd : List Row} {p : Option String}
    {t : Int} {r : MatchResult} (h : strategy5 o pd p t = some r) :
    r.method = some "fuzzy_product_token_enhanced" := by
  unfold strategy5 fuzzyFinish at h
  try dsimp only at h
  repeat' split at h
  all_goals simp_all
  all_goals (subst h; simp)

theorem match_product_cases (o : Oracles) (pd : List Row) (db : List DbRow)
    (p a : Option String) (t : Int) :
    match_product o pd db p a t = ⟨none, none, 0, none⟩ ∨
    strategy1 o pd p a = some (match_product o pd db p a t) ∨
    strategy2 pd p = some (match_product o pd db p a t) ∨
    strategy3 db p = some (match_product o pd db p a t) ∨
    strategy4 o pd a = some (match_product o pd db p a t) ∨
    strategy5 o pd p t = some (match_product o pd db p a t) := by
  unfold match_product
  rcases h1 : strategy1 o pd p a with _ | r1
  · rcases h2 : strategy2 pd p with _ | r2
    · rcases h3 : strategy3 db p with _ | r3
      · rcases h4 : strategy4 o pd a with _ | r4
        · rcases h5 : strategy5 o pd p t with _ | r5
          · simp
          · simp [h5]
        · simp [h4]
      · simp [h3]
    · simp [h2]
  · simp [h1]

theorem get_articles_by_product_eq_nil {pd : List Row} {p : String}
    (h : ∀ e ∈ get_all_products pd, e.name ≠ p) :
    get_articles_by_product pd p = [] := by
  unfold get_articles_by_product
  rw [List.filter_eq_nil_iff.mpr (by intro e he; simpa using h e he)]
  rfl

theorem strategy2_none_of_nil {pd : List Row} {p : String}
    (hb : get_articles_by_product pd p = []) :
    strategy2 pd (some p) = none := by
  unfold strategy2 truthy?
  by_cases he : p.isEmpty
  · simp [he]
  · simp [he, hb]

theorem get_synonym_match_score {db : List DbRow} {p : String}
    {r : SynRecord} (h : get_synonym_match db p = some r) : r.score = 100 := by
  unfold get_synonym_match at h
  rw [Option.map_eq_some'] at h
  obtain ⟨pr, hfind, hr⟩ := h
  have hm := List.mem_of_find?_eq_some hfind
  rw [List.mem_reverse, List.mem_flatMap] at hm
  obtain ⟨row, hrow, hpr⟩ := hm
  rw [List.mem_map] at hpr
  obtain ⟨syn, hsyn, hpr⟩ := hpr
  rw [← hr, ← hpr]

theorem get_synonym_match_none {db : List DbRow} {p : String}
    (h : ∀ row ∈ db, ∀ syn ∈ row.synonyms, pyLower syn ≠ pyLower p) :
    get_synonym_match db p = none := by
  unfold get_synonym_match
  rw [List.find?_eq_none.mpr ?_]
  · rfl
  · intro x hx
    rw [List.mem_reverse, List.mem_flatMap] at hx
    obtain ⟨row, hrow, hx⟩ := hx
    rw [List.mem_map] at hx
    obtain ⟨syn, hsyn, rfl⟩ := hx
    simpa using h row hrow syn hsyn

theorem strategy3_none {db : List DbRow} {q : Option String}
    (h : ∀ p, q = some p → ∀ row ∈ db, ∀ syn ∈ row.synonyms,
      pyLower syn ≠ pyLower p) :
    strategy3 db q = none := by
  unfold strategy3 truthy?
  rcases q with _ | p
  · rfl
  · by_cases he : p.isEmpty
    · simp [he]
    · simp [he, get_synonym_match_none (h p rfl)]

theorem cbabtFold_le (it : Finset String) (c : ℚ) :
    ∀ (pairs : List (String × String)) (bs : ℚ) (ba : Option String),
      (∀ pr ∈ pairs, token_similarity it (extract_tokens pr.2) ≤ c) →
      bs ≤ c → (cbabtFold it pairs bs ba).1 ≤ c := by
  intro pairs
  induction pairs with
  | nil => intro bs ba _ hbs; exact hbs
  | cons pr rest ih =>
    intro bs ba h hbs
    obtain ⟨a, n⟩ := pr
    unfold cbabtFold
    split
    · exact ih _ _ (fun q hq => h q (List.mem_cons_of_mem _ hq)) (h (a, n) (List.mem_cons_self _ _))
    · exact ih _ _ (fun q hq => h q (List.mem_cons_of_mem _ hq)) hbs

theorem cbabtFold_stay (it : Finset String) :
    ∀ (pairs : List (String × String)) (bs : ℚ) (ba : Option String),
      (∀ pr ∈ pairs, token_similarity it (extract_tokens pr.2) ≤ bs) →
      cbabtFold it pairs bs ba = (bs, ba) := by
  intro pairs
  induction pairs with
  | nil => intro bs ba _; rfl
  | cons pr rest ih =>
    intro bs ba h
    obtain ⟨a, n⟩ := pr
    unfold cbabtFold
    rw [if_neg (not_lt.mpr (h (a, n) (List.mem_cons_self _ _)))]
    exact ih _ _ (fun q hq => h q (List.mem_cons_of_mem _ hq))

theorem cbabt_none {pd : List Row} {p : String} {articles : List String}
    (h : extract_tokens p = ∅ ∨
      ∀ a ∈ articles, ∀ e ∈ get_products_by_article pd a,
        token_similarity (extract_tokens p) (extract_tokens e.name) ≤ 1 / 2) :
    choose_best_article_by_tokens pd p articles = none := by
  simp only [choose_best_article_by_tokens]
  rcases h with h | h
  · rw [if_pos h]
  · by_cases hit : extract_tokens p = ∅
    · rw [if_pos hit]
    · rw [if_neg hit]
      have hle : (cbabtFold (extract_tokens p)
          (articles.flatMap (fun a =>
            (get_products_by_article pd a).map (fun e => (a, e.name)))) 0 none).1
          ≤ 1 / 2 := by
        apply cbabtFold_le
        · intro pr hpr
          rw [List.mem_flatMap] at hpr
          obtain ⟨a, ha, hpr⟩ := hpr
          rw [List.mem_map] at hpr
          obtain ⟨e, he, rfl⟩ := hpr
          exact h a ha e he
        · norm_num
      rw [if_neg (not_lt.mpr hle)]

theorem mem_articles_imp {pd : List Row} {p a : String}
    (h : a ∈ get_articles_by_product pd p) :
    Entry.mk a p ∈ get_products_by_article pd a := by
  unfold get_articles_by_product at h
  rw [List.mem_map] at h
  obtain ⟨e, he, ha⟩ := h
  rw [List.mem_filter] at he
  obtain ⟨hv, hname⟩ := he
  have hn : e.name = p := by simpa using hname
  have he2 : e = Entry.mk a p := by
    cases e
    simp only at ha hn
    rw [ha, hn]
  unfold get_products_by_article
  rw [List.mem_filter]
  exact ⟨he2 ▸ hv, by simp⟩

theorem sim_self {t : Finset String} (h : t ≠ ∅) : token_similarity t t = 1 := by
  unfold token_similarity
  rw [if_neg (by tauto), Finset.union_self, if_neg h, Finset.inter_self]
  rw [div_self]
  simpa using Finset.card_ne_zero_of_mem
    (Finset.nonempty_iff_ne_empty.mpr h).choose_spec

theorem cbabt_first_of_names_eq {pd : List Row} {p a₁ : String}
    {l : List String} (hit : extract_tokens p ≠ ∅)
    (hmem : Entry.mk a₁ p ∈ get_products_by_article pd a₁)
    (H : ∀ a ∈ a₁ :: l, ∀ e ∈ get_products_by_article pd a, e.name = p) :
    choose_best_article_by_tokens pd p (a₁ :: l) = some a₁ := by
  obtain ⟨e₀, es, hes⟩ :=
    List.exists_cons_of_ne_nil (List.ne_nil_of_mem hmem)
  have he₀ : e₀.name = p :=
    H a₁ (List.mem_cons_self _ _) e₀ (hes ▸ List.mem_cons_self _ _)
  have hone : ∀ pr ∈ (a₁ :: l).flatMap (fun a =>
      (get_products_by_article pd a).map (fun e => (a, e.name))),
      token_similarity (extract_tokens p) (extract_tokens pr.2) = 1 := by
    intro pr hpr
    rw [List.mem_flatMap] at hpr
    obtain ⟨a, ha, hpr⟩ := hpr
    rw [List.mem_map] at hpr
    obtain ⟨e, he, rfl⟩ := hpr
    rw [H a ha e he]
    exact sim_self hit
  simp only [choose_best_article_by_tokens]
  rw [if_neg hit]
  have hexp : (a₁ :: l).flatMap (fun a =>
      (get_products_by_article pd a).map (fun e => (a, e.name)))
      = (a₁, p) :: (es.map (fun e => (a₁, e.name))
        ++ l.flatMap (fun a =>
          (get_products_by_article pd a).map (fun e => (a, e.name)))) := by
    rw [List.flatMap_cons, hes]
    simp [he₀]
  rw [hexp]
  have hfold : cbabtFold (extract_tokens p)
      ((a₁, p) :: (es.map (fun e => (a₁, e.name))
        ++ l.flatMap (fun a =>
          (get_products_by_article pd a).map (fun e => (a, e.name))))) 0 none
      = (1, some a₁) := by
    unfold cbabtFold
    rw [if_pos (by rw [sim_self hit]; norm_num)]
    rw [sim_self hit]
    apply cbabtFold_stay
    intro pr hpr
    rw [hexp] at hone
    exact le_of_eq (hone pr (List.mem_cons_of_mem _ hpr))
  rw [hfold]
  norm_num

theorem runningMax_cons (it : Finset String) (b : ℚ) (m : String × Int)
    (l : List (String × Int)) :
    runningMax it b (m :: l) = max (combinedScore it m) (runningMax it b l) :=
  rfl

theorem le_runningMax (it : Finset String) :
    ∀ (l : List (String × Int)) (b : ℚ), b ≤ runningMax it b l := by
  intro l
  induction l with
  | nil => intro b; exact le_refl b
  | cons m l ih =>
    intro b
    rw [runningMax_cons]
    exact le_trans (ih b) (le_max_right _ _)

theorem runningMax_mono (it : Finset String) :
    ∀ (l : List (String × Int)) (b c : ℚ), b ≤ c →
      runningMax it c l = max (runningMax it b l) c := by
  intro l
  induction l with
  | nil => intro b c hbc; exact (max_eq_right hbc).symm
  | cons m l ih =>
    intro b c hbc
    rw [runningMax_cons, runningMax_cons, ih b c hbc, max_assoc]

theorem runningMax_exists (it : Finset String) :
    ∀ (l : List (String × Int)) (b : ℚ), b ≠ runningMax it b l →
      ∃ m ∈ l, combinedScore it m = runningMax it b l := by
  intro l
  induction l with
  | nil => intro b hb; exact absurd rfl hb
  | cons m l ih =>
    intro b hb
    rw [runningMax_cons]
    rcases le_total (runningMax it b l) (combinedScore it m) with hle | hle
    · exact ⟨m, List.mem_cons_self _ _, (max_eq_left hle).symm⟩
    · rw [max_eq_right hle]
      rw [runningMax_cons, max_eq_right hle] at hb
      obtain ⟨m', hm', he⟩ := ih b hb
      exact ⟨m', List.mem_cons_of_mem _ hm', he⟩

theorem ewtAux_eq (it : Finset String) :
    ∀ (l : List (String × Int)) (bc : ℚ) (b : String × Int),
      ewtAux it l bc b =
        if bc < runningMax it bc l then
          match l.find? (fun m => decide (combinedScore it m = runningMax it bc l)) with
          | some m => (m.1, pyInt (runningMax it bc l))
          | none => b
        else b := by
  intro l
  induction l with
  | nil =>
    intro bc b
    rw [show runningMax it bc [] = bc from rfl, if_neg (lt_irrefl bc)]
    rfl
  | cons m l ih =>
    intro bc b
    rw [runningMax_cons]
    by_cases hcm : bc < combinedScore it m
    · have hMc : runningMax it (combinedScore it m) l
          = max (runningMax it bc l) (combinedScore it m) :=
        runningMax_mono it l bc (combinedScore it m) (le_of_lt hcm)
      have hM : max (combinedScore it m) (runningMax it bc l)
          = runningMax it (combinedScore it m) l := by
        rw [hMc, max_comm]
      have hpos : bc < max (combinedScore it m) (runningMax it bc l) :=
        lt_of_lt_of_le hcm (le_max_left _ _)
      rw [if_pos hpos]
      show ewtAux it (m :: l) bc b = _
      unfold ewtAux
      rw [if_pos hcm, ih]
      by_cases hceq : combinedScore it m = max (combinedScore it m) (runningMax it bc l)
      · rw [List.find?_cons_of_pos _ (by simpa using hceq)]
        have hnlt : ¬ combinedScore it m < runningMax it (combinedScore it m) l := by
          rw [← hM, ← hceq]
          exact lt_irrefl _
        rw [if_neg hnlt]
        rw [← hceq]
      · rw [List.find?_cons_of_neg _ (by simpa using hceq)]
        have hlt : combinedScore it m < runningMax it (combinedScore it m) l := by
          rw [← hM]
          exact lt_of_le_of_ne (le_max_left _ _) hceq
        rw [if_pos hlt]
        have hex : ∃ m' ∈ l, combinedScore it m'
            = runningMax it (combinedScore it m) l :=
          runningMax_exists it l (combinedScore it m) (ne_of_lt hlt)
        rcases hf : l.find? (fun m' =>
            decide (combinedScore it m' = runningMax it (combinedScore it m) l)) with _ | m'
        · obtain ⟨m', hm', he⟩ := hex
          have := List.find?_eq_none.mp hf m' hm'
          simp [he] at this
        · rw [hM, hf]
    · have hcb : combinedScore it m ≤ bc := not_lt.mp hcm
      have hM : max (combinedScore it m) (runningMax it bc l) = runningMax it bc l :=
        max_eq_right (le_trans hcb (le_runningMax it l bc))
      rw [hM]
      show ewtAux it (m :: l) bc b = _
      unfold ewtAux
      rw [if_neg hcm, ih]
      have hne : ¬ combinedScore it m = runningMax it bc l → True := fun _ => trivial
      by_cases hm : bc < runningMax it bc l
      · rw [if_pos hm, if_pos hm]
        have hcne : ¬ combinedScore it m = runningMax it bc l := by
          intro he
          rw [he] at hcb
          exact absurd hm (not_lt.mpr hcb)
        rw [List.find?_cons_of_neg _ (by simpa using hcne)]
      · rw [if_neg hm, if_neg hm]

/-! ### Claim theorems -/

/-- C7: token-set similarity equals the Jaccard index when both sets are
non-empty, equals 0 when either set is empty, and always lies in [0, 1]. -/
theorem c7_token_similarity_jaccard (A B : Finset String) :
    (A ≠ ∅ → B ≠ ∅ →
      token_similarity A B = ((A ∩ B).card : ℚ) / ((A ∪ B).card : ℚ))
    ∧ (A = ∅ ∨ B = ∅ → token_similarity A B = 0)
    ∧ 0 ≤ token_similarity A B ∧ token_similarity A B ≤ 1 := by
  refine ⟨fun hA hB => ?_, fun h => ?_, ?_, ?_⟩
  · unfold token_similarity
    rw [if_neg (by tauto)]
    rw [if_neg (by simp [Finset.union_eq_empty]; tauto)]
  · unfold token_similarity
    rw [if_pos h]
  · unfold token_similarity
    split
    · exact le_refl 0
    · split
      · exact le_refl 0
      · positivity
  · unfold token_similarity
    split
    · exact zero_le_one
    · split
      · exact zero_le_one
      · rename_i hne hu
        rw [div_le_one (by exact_mod_cast Finset.card_pos.mpr (Finset.nonempty_iff_ne_empty.mpr hu))]
        exact_mod_cast Finset.card_le_card Finset.inter_subset_union

/-- C7 witness: the theorem applied at the concrete non-empty sets
`{"a"}` and `{"a", "b"}`. -/
theorem c7_witness :
    token_similarity {"a"} {"a", "b"}
      = ((({"a"} : Finset String) ∩ {"a", "b"}).card : ℚ)
        / ((({"a"} : Finset String) ∪ {"a", "b"}).card : ℚ) :=
  (c7_token_similarity_jaccard {"a"} {"a", "b"}).1 (by decide) (by decide)

/-- C2 is false as stated: observing the same strong fuzzy result twice
appends two pending suggestions for the (synonym text, code) pair, not
one. -/
theorem c2_counterexample :
    countPending
      (suggest_synonym "t0" "R9 Blck" "12345" "Rakza 9" 90
        (suggest_synonym "t0" "R9 Blck" "12345" "Rakza 9" 90 []))
      "R9 Blck" "12345" = 2
    ∧ countPending
        (suggest_synonym "t0" "R9 Blck" "12345" "Rakza 9" 90 [])
        "R9 Blck" "12345" = 1 := by
  exact ⟨by decide, by decide⟩

/-- C2 amended: `suggest_synonym` performs no duplicate check, so applying
it twice with the same qualifying arguments (score in [85, 100)) adds
exactly two pending suggestions for that (synonym text, code) pair —
suggestion creation is not idempotent. -/
theorem c2_amended_suggest_twice_adds_two
    (now text art prod : String) (score : Int) (pending : List Suggestion)
    (h85 : 85 ≤ score) (h100 : score < 100) :
    countPending
      (suggest_synonym now text art prod score
        (suggest_synonym now text art prod score pending)) text art
      = countPending pending text art + 2 := by
  unfold suggest_synonym
  rw [if_pos ⟨h85, h100⟩, if_pos ⟨h85, h100⟩]
  unfold countPending
  rw [List.append_assoc, List.filter_append]
  simp

/-- C2 witness: the amended theorem applied at a concrete qualifying
score. -/
theorem c2_witness :
    countPending
      (suggest_synonym "t0" "a" "b" "c" 90
        (suggest_synonym "t0" "a" "b" "c" 90 [])) "a" "b"
      = countPending [] "a" "b" + 2 :=
  c2_amended_suggest_twice_adds_two "t0" "a" "b" "c" 90 [] (by decide) (by decide)

/-- C10: `approve_synonym` is atomic on failure — whenever it returns
`false` (missing catalog entry, synonym already present, or the
persistence call raising) the pending list is unchanged, and the usage
counters are never touched by the call. -/
theorem c10_approve_failure_atomic (db : PyDb) (syn art : String)
    (m : Manager) :
    ((approve_synonym db syn art m).1 = false →
      (approve_synonym db syn art m).2 = m)
    ∧ (approve_synonym db syn art m).2.usage = m.usage := by
  unfold approve_synonym
  rcases h : db.get_product art with _ | syns
  · exact ⟨fun _ => rfl, rfl⟩
  · dsimp only
    split
    · exact ⟨fun _ => rfl, rfl⟩
    · split
      · exact ⟨fun _ => rfl, rfl⟩
      · exact ⟨fun hf => absurd hf (by simp), rfl⟩

/-- C10 witness: the theorem applied at a database stub with no catalog
entry, where `approve_synonym` returns `false`. -/
theorem c10_witness :
    (approve_synonym dbNone "a" "12345" ⟨[], []⟩).1 = false ∧
    (approve_synonym dbNone "a" "12345" ⟨[], []⟩).2 = ⟨[], []⟩ :=
  ⟨rfl, (c10_approve_failure_atomic dbNone "a" "12345" ⟨[], []⟩).1 rfl⟩

/-- C3: with a code whose bucket has two or more entries and no name given,
`match_product` returns the first entry in catalog insertion order with
score 100, tagged `exact_article_first`, which the spec's method
abstraction maps to the declared variant ExactCode. -/
theorem c3_exact_code_multi_no_name (o : Oracles) (pd : List Row)
    (db : List DbRow) (t : Int) (a : String) (ha : a.isEmpty = false)
    (e1 e2 : Entry) (rest : List Entry)
    (hb : get_products_by_article pd a = e1 :: e2 :: rest) :
    match_product o pd db none (some a) t
      = ⟨some e1.article, some e1.name, 100, some "exact_article_first"⟩
    ∧ methodAbs "exact_article_first" = some MatchMethod.ExactCode := by
  have hs1 : strategy1 o pd none (some a)
      = some ⟨some e1.article, some e1.name, 100, some "exact_article_first"⟩ := by
    unfold strategy1
    simp [truthy?, ha, hb]
  refine ⟨?_, rfl⟩
  unfold match_product
  rw [hs1]

/-- C3 witness: the theorem applied at a concrete catalog in which article
12345 owns two entries. -/
theorem c3_witness :
    match_product oTriv pdC3 [] none (some "12345") 80
      = ⟨some "12345", some "A", 100, some "exact_article_first"⟩ :=
  (c3_exact_code_multi_no_name oTriv pdC3 [] 80 "12345" (by decide)
    ⟨"12345", "A"⟩ ⟨"12345", "B"⟩ [] (by decide)).1

/-- C6: `match_product` is a total function (it returns a `MatchResult` for
every cache, query and threshold and can signal no error by construction),
it returns `(None, None, 0, None)` when both name and code are absent, and
it returns exactly `(None, None, 0, None)` whenever no strategy produces a
match. -/
theorem c6_total_no_match_default (o : Oracles) (pd : List Row)
    (db : List DbRow) (p a : Option String) (t : Int) :
    match_product o pd db none none t = ⟨none, none, 0, none⟩
    ∧ (strategy1 o pd p a = none → strategy2 pd p = none →
       strategy3 db p = none → strategy4 o pd a = none →
       strategy5 o pd p t = none →
       match_product o pd db p a t = ⟨none, none, 0, none⟩) := by
  constructor
  · rfl
  · intro h1 h2 h3 h4 h5
    unfold match_product
    rw [h1, h2, h3, h4, h5]

/-- C6 witness: the theorem applied at an empty cache where all five
strategies produce nothing. -/
theorem c6_witness :
    match_product oTriv [] [] (some "x") (some "y") 80
      = ⟨none, none, 0, none⟩ :=
  (c6_total_no_match_default oTriv [] [] (some "x") (some "y") 80).2
    rfl rfl rfl rfl rfl

/-- C9: exact-name lookup is case-sensitive — when the query name is not
character-for-character equal to any stored product name, the by-name index
returns no codes, and `match_product` can never produce a method that the
spec's abstraction maps to ExactName or ExactNameTokenDisambiguated. -/
theorem c9_exact_name_case_sensitive (o : Oracles) (pd : List Row)
    (db : List DbRow) (p : String) (a : Option String) (t : Int)
    (h : ∀ e ∈ get_all_products pd, e.name ≠ p) :
    get_articles_by_product pd p = []
    ∧ ∀ s, (match_product o pd db (some p) a t).method = some s →
        methodAbs s ≠ some MatchMethod.ExactName
        ∧ methodAbs s ≠ some MatchMethod.ExactNameTokenDisambiguated := by
  have hb := get_articles_by_product_eq_nil h
  refine ⟨hb, fun s hs => ?_⟩
  have hs2 := strategy2_none_of_nil hb
  rcases match_product_cases o pd db (some p) a t with hd | hc | hc | hc | hc | hc
  · rw [hd] at hs
    exact absurd hs (by simp)
  · rcases strategy1_tags hc with h1 | h1 | h1 <;>
      (rw [hs] at h1; injection h1 with h1; subst h1; exact ⟨by decide, by decide⟩)
  · rw [hs2] at hc
    cases hc
  · have h3 := strategy3_tags hc
    rw [hs] at h3
    injection h3 with h3
    subst h3
    exact ⟨by decide, by decide⟩
  · have h4 := strategy4_tags hc
    rw [hs] at h4
    injection h4 with h4
    subst h4
    exact ⟨by decide, by decide⟩
  · have h5 := strategy5_tags hc
    rw [hs] at h5
    injection h5 with h5
    subst h5
    exact ⟨by decide, by decide⟩

/-- C9 witness: the theorem applied at a catalog storing only the name
"Rakza", queried with the lower-cased "rakza". -/
theorem c9_witness : get_articles_by_product [⟨some "1", some "Rakza"⟩] "rakza" = [] :=
  (c9_exact_name_case_sensitive oTriv [⟨some "1", some "Rakza"⟩] [] "rakza"
    none 80 (by decide)).1

/-- C4: synonym matching is case-insensitive and exact-only. When the cache
holds a synonym record found under the case-folded query (and neither the
exact-code nor the exact-name strategy applies), `match_product` returns
that record's code with score 100 and the `synonym_match` tag, which the
spec maps to the Synonym variant; and when the case-folded query differs
from every stored synonym, the result's method is never `synonym_match`. -/
theorem c4_synonym_exact_case_insensitive :
    (∀ (o : Oracles) (pd : List Row) (db : List DbRow) (p : String) (t : Int)
       (r : SynRecord), p.isEmpty = false →
       get_articles_by_product pd p = [] →
       get_synonym_match db p = some r →
       match_product o pd db (some p) none t
         = ⟨some r.article, some r.product, 100, some "synonym_match"⟩
       ∧ methodAbs "synonym_match" = some MatchMethod.Synonym)
    ∧ ∀ (o : Oracles) (pd : List Row) (db : List DbRow) (q a : Option String)
        (t : Int),
        (∀ p, q = some p → ∀ row ∈ db, ∀ syn ∈ row.synonyms,
          pyLower syn ≠ pyLower p) →
        (match_product o pd db q a t).method ≠ some "synonym_match" := by
  constructor
  · intro o pd db p t r hp hb hsyn
    have hscore := get_synonym_match_score hsyn
    have hs1 : strategy1 o pd (some p) none = none := rfl
    have hs2 := strategy2_none_of_nil hb
    have hs3 : strategy3 db (some p)
        = some ⟨some r.article, some r.product, r.score, some "synonym_match"⟩ := by
      unfold strategy3 truthy?
      simp [hp, hsyn]
    refine ⟨?_, rfl⟩
    unfold match_product
    rw [hs1, hs2, hs3, hscore]
  · intro o pd db q a t h
    have hs3 := strategy3_none h
    intro hs
    rcases match_product_cases o pd db q a t with hd | hc | hc | hc | hc | hc
    · rw [hd] at hs
      exact absurd hs (by simp)
    · rcases strategy1_tags hc with h1 | h1 | h1 <;>
        (rw [hs] at h1; injection h1 with h1; exact absurd h1 (by decide))
    · rcases strategy2_tags hc with h2 | h2 | h2 <;>
        (rw [hs] at h2; injection h2 with h2; exact absurd h2 (by decide))
    · rw [hs3] at hc
      cases hc
    · have h4 := strategy4_tags hc
      rw [hs] at h4
      injection h4 with h4
      exact absurd h4 (by decide)
    · have h5 := strategy5_tags hc
      rw [hs] at h5
      injection h5 with h5
      exact absurd h5 (by decide)

/-- C4 witness: stored synonym "R9 Black" → code 12345; the query
"r9 black" (different case) resolves via the Synonym method, while the
one-character-short "r9 blac" never does. -/
theorem c4_witness :
    match_product oTriv [] [⟨"12345", "R9", ["R9 Black"]⟩] (some "r9 black") none 80
      = ⟨some "12345", some "R9", 100, some "synonym_match"⟩
    ∧ (match_product oTriv [] [⟨"12345", "R9", ["R9 Black"]⟩] (some "r9 blac") none 80).method
        ≠ some "synonym_match" :=
  ⟨(c4_synonym_exact_case_insensitive.1 oTriv [] [⟨"12345", "R9", ["R9 Black"]⟩]
      "r9 black" 80 ⟨"12345", "R9", 100⟩ (by decide) (by decide) (by decide)).1,
   c4_synonym_exact_case_insensitive.2 oTriv [] [⟨"12345", "R9", ["R9 Black"]⟩]
     (some "r9 blac") none 80 (by
      intro p hp row hrow syn hsyn
      cases hp
      rw [List.mem_singleton] at hrow
      subst hrow
      simp only [List.mem_singleton] at hsyn
      subst hsyn
      decide)⟩

/-- C5: when one exact name maps to two or more codes, resolution is
deterministic (the embedding is a pure function, so equal caches and
queries give equal results by construction; this theorem pins down the
exact output). When token-set similarity does not exceed 0.5 for any
candidate — or the query has no tokens — the first code in catalog
insertion order is returned with score 100; and when all entries of the
candidate codes carry the identical name, the first code always wins. -/
theorem c5_exact_name_multi_deterministic :
    (∀ (o : Oracles) (pd : List Row) (db : List DbRow) (t : Int)
       (p a₁ : String) (l : List String), p.isEmpty = false →
       get_articles_by_product pd p = a₁ :: l → l ≠ [] →
       (extract_tokens p = ∅ ∨
        ∀ a ∈ a₁ :: l, ∀ e ∈ get_products_by_article pd a,
          token_similarity (extract_tokens p) (extract_tokens e.name) ≤ 1 / 2) →
       match_product o pd db (some p) none t
         = ⟨some a₁, some p, 100, some "exact_product_first"⟩)
    ∧ ∀ (o : Oracles) (pd : List Row) (db : List DbRow) (t : Int)
        (p a₁ : String) (l : List String), p.isEmpty = false →
        get_articles_by_product pd p = a₁ :: l → l ≠ [] →
        (∀ a ∈ a₁ :: l, ∀ e ∈ get_products_by_article pd a, e.name = p) →
        (match_product o pd db (some p) none t).article = some a₁
        ∧ (match_product o pd db (some p) none t).name = some p
        ∧ (match_product o pd db (some p) none t).score = 100 := by
  constructor
  · intro o pd db t p a₁ l hp hb hl hsim
    obtain ⟨a₂, l', rfl⟩ := List.exists_cons_of_ne_nil hl
    have hs1 : strategy1 o pd (some p) none = none := rfl
    have hcb := @cbabt_none pd p (a₁ :: a₂ :: l') hsim
    have hs2 : strategy2 pd (some p)
        = some ⟨some a₁, some p, 100, some "exact_product_first"⟩ := by
      unfold strategy2 truthy?
      simp [hp, hb, hcb]
    unfold match_product
    rw [hs1, hs2]
  · intro o pd db t p a₁ l hp hb hl H
    obtain ⟨a₂, l', rfl⟩ := List.exists_cons_of_ne_nil hl
    have hs1 : strategy1 o pd (some p) none = none := rfl
    have hmem : Entry.mk a₁ p ∈ get_products_by_article pd a₁ :=
      mem_articles_imp (hb ▸ List.mem_cons_self _ _)
    by_cases hit : extract_tokens p = ∅
    · have hcb := @cbabt_none pd p (a₁ :: a₂ :: l') (Or.inl hit)
      have hs2 : strategy2 pd (some p)
          = some ⟨some a₁, some p, 100, some "exact_product_first"⟩ := by
        unfold strategy2 truthy?
        simp [hp, hb, hcb]
      unfold match_product
      rw [hs1, hs2]
      exact ⟨rfl, rfl, rfl⟩
    · have hcb := cbabt_first_of_names_eq hit hmem H
      have hs2 : strategy2 pd (some p)
          = some ⟨some a₁, some p, 100, some "exact_product_token_disambiguated"⟩ := by
        unfold strategy2 truthy?
        simp [hp, hb, hcb]
      unfold match_product
      rw [hs1, hs2]
      exact ⟨rfl, rfl, rfl⟩

/-- C5 witness: two entries with the identical name "2.0mm" under codes
12345 and 12347 resolve to the first code 12345, and two token-free
identical names resolve to the first code via the catalog-order
fallback. -/
theorem c5_witness :
    (match_product oTriv [⟨some "12345", some "2.0mm"⟩, ⟨some "12347", some "2.0mm"⟩]
        [] (some "2.0mm") none 80).article = some "12345"
    ∧ match_product oTriv [⟨some "1", some "Rakza"⟩, ⟨some "2", some "Rakza"⟩]
        [] (some "Rakza") none 80
        = ⟨some "1", some "Rakza", 100, some "exact_product_first"⟩ :=
  ⟨(c5_exact_name_multi_deterministic.2 oTriv
      [⟨some "12345", some "2.0mm"⟩, ⟨some "12347", some "2.0mm"⟩] [] 80
      "2.0mm" "12345" ["12347"] (by decide) (by decide) (by decide)
      (by decide)).1,
   c5_exact_name_multi_deterministic.1 oTriv
     [⟨some "1", some "Rakza"⟩, ⟨some "2", some "Rakza"⟩] [] 80
     "Rakza" "1" ["2"] (by decide) (by decide) (by decide)
     (Or.inl (by decide))⟩

theorem csC1_b : combinedScore (extract_tokens "a 2mm") ("b", 90) = 63 := by
  unfold combinedScore
  rw [show extract_tokens (("b", (90 : Int)) : String × Int).1 = (∅ : Finset String) from by decide]
  rw [show token_similarity (extract_tokens "a 2mm") ∅ = 0 from by
    unfold token_similarity; rw [if_pos (Or.inr rfl)]]
  norm_num

theorem csC1_c : combinedScore (extract_tokens "a 2mm") ("c 2mm", 85) = 179 / 2 := by
  unfold combinedScore
  rw [show extract_tokens (("c 2mm", (85 : Int)) : String × Int).1 = extract_tokens "a 2mm" from by decide]
  rw [sim_self (by decide)]
  norm_num

theorem ewtC1 : enhance_with_tokens "a 2mm" [("b", 90), ("c 2mm", 85)] = ("b", 90) := by
  unfold enhance_with_tokens
  simp only [ewtAux]
  rw [csC1_b, csC1_c]
  norm_num

/-- C1 is false as stated: with surviving candidates ("b", fuzzy 90) and
("c 2mm", fuzzy 85) for the query "a 2mm", the candidate "c 2mm" has the
strictly larger combined score (89.5 versus 63), yet step 5 returns "b"
with its raw fuzzy score 90 — the running best is initialized to the first
candidate's raw fuzzy score instead of its combined score. -/
theorem c1_counterexample :
    match_product oC1 pdC1 [] (some "a 2mm") none 80
      = ⟨some "1", some "b", 90, some "fuzzy_product_token_enhanced"⟩
    ∧ combinedScore (extract_tokens "a 2mm") ("c 2mm", 85)
        > combinedScore (extract_tokens "a 2mm") ("b", 90) := by
  constructor
  · have hs1 : strategy1 oC1 pdC1 (some "a 2mm") none = none := rfl
    have hs2 : strategy2 pdC1 (some "a 2mm") = none :=
      strategy2_none_of_nil (by decide)
    have hs3 : strategy3 [] (some "a 2mm") = none := rfl
    have hs4 : strategy4 oC1 pdC1 none = none := rfl
    have hs5 : strategy5 oC1 pdC1 (some "a 2mm") 80
        = some ⟨some "1", some "b", 90, some "fuzzy_product_token_enhanced"⟩ := by
      rw [show strategy5 oC1 pdC1 (some "a 2mm") 80
          = fuzzyFinish pdC1 "a 2mm"
              (enhance_with_tokens "a 2mm" [("b", 90), ("c 2mm", 85)]) from rfl]
      rw [ewtC1]
      decide
    unfold match_product
    rw [hs1, hs2, hs3, hs4, hs5]
  · rw [csC1_b, csC1_c]
    norm_num

/-- C1 amended: in step 5's enhancement the running best is initialized to
the first surviving candidate with its raw fuzzy score and is replaced only
by a candidate whose combined score `0.7*fuzzy + 0.3*(100*tokenSim)`
strictly exceeds the running best. Consequently the earliest candidate
attaining the maximal combined score is returned with that maximum
truncated to an integer, provided the maximum strictly exceeds the first
candidate's raw fuzzy score; otherwise the first candidate is returned
unchanged with its raw fuzzy score (ties are still broken by original
fuzzy rank, and the reported score is the truncated, not rounded, combined
score). -/
theorem c1_amended_enhance_spec (input_product : String)
    (fuzzy_matches : List (String × Int)) :
    enhance_with_tokens input_product fuzzy_matches
      = enhanceSpecAmended input_product fuzzy_matches := by
  cases fuzzy_matches with
  | nil => rfl
  | cons m0 tl =>
    show ewtAux (extract_tokens input_product) (m0 :: tl) ((m0.2 : ℚ)) m0 = _
    rw [ewtAux_eq]
    rfl

end OPS
